import Mathlib

/-!
# Verification of the irspack offline evaluation / split / optimization engine

The repository's observable material is tutorial notebooks invoking the
`irspack` library (`rowwise_train_test_split`, `Evaluator`,
`split_dataframe_partial_user_holdout`, the `*Optimizer` classes).  The
implementations themselves are not part of the observable sources, so the
definitions below are shallow embeddings modelled from the specification's
description of each operation, kept consistent with the concrete outputs
printed in the notebooks (key orderings, `get_score` usage, warning
behaviour).  Sparse interaction matrices are embedded as dense lists of
rows over `ℚ` (an entry is "stored"/nonzero iff its value is nonzero);
floating-point NaN is embedded as `Option.none`.
-/

namespace Irspack

/-- A matrix is a list of rows; entries are rationals (implicit-feedback
weights).  Out-of-range entries read as `0`. -/
abbrev Mat := List (List ℚ)

/-- Entry access with the all-zero padding convention. -/
def entry (A : Mat) (i j : Nat) : ℚ := (A.getD i []).getD j 0

/-- The nonzero column indices of a row, in ascending order. -/
def nonzeroIndices (row : List ℚ) : List Nat :=
  (List.range row.length).filter (fun j => row.getD j 0 ≠ 0)

/-- Modelled from the spec: a linear-congruential step standing in for the
seeded pseudo-random number generator used by the splitter (the concrete
generator is part of the library, not of the observable sources; every
claim in scope only needs it to be a pure function of the seed). -/
def lcgNext (s : Nat) : Nat := (s * 1103515245 + 12345) % 2147483648

/-- One selection step of the seeded shuffle: pick position `s % length`,
move that element to the front, recurse on the rest with the stepped seed.
The first argument is fuel, instantiated with the list length. -/
def shuffleAux (s : Nat) : Nat → List α → List α
  | 0, _ => []
  | _ + 1, [] => []
  | n + 1, l =>
    let k := s % l.length
    match l.drop k with
    | [] => []
    | x :: rest => x :: shuffleAux (lcgNext s) n (l.take k ++ rest)

/-- Modelled from the spec: the seeded pseudo-random permutation used by
`rowwise_train_test_split` and the user shuffle of
`split_dataframe_partial_user_holdout`. -/
def shuffle (seed : Nat) (l : List α) : List α := shuffleAux seed l.length l

/-- Modelled from the spec: per-row split of `rowwise_train_test_split`.
The row's nonzero column indices are permuted by the seeded shuffle and the
first `⌊test_ratio * nnz⌋` of them become the test (held-out) columns; the
row keeps its value at a column in exactly one of the two outputs. -/
def splitRow (r : ℚ) (seed : Nat) (row : List ℚ) : List ℚ × List ℚ :=
  let nz := nonzeroIndices row
  let testCols := (shuffle seed nz).take (⌊r * nz.length⌋).toNat
  ((List.range row.length).map (fun j => if j ∈ testCols then 0 else row.getD j 0),
   (List.range row.length).map (fun j => if j ∈ testCols then row.getD j 0 else 0))

/-- Modelled from the spec: `rowwise_train_test_split(X, test_ratio, seed)`.
Each row is split independently, with a per-row seed derived from the run
seed and the row index. -/
def rowwiseSplit (X : Mat) (r : ℚ) (seed : Nat) : Mat × Mat :=
  (X.enum.map (fun p => (splitRow r (lcgNext (seed + p.1)) p.2).1),
   X.enum.map (fun p => (splitRow r (lcgNext (seed + p.1)) p.2).2))

/-- Elementwise sum of two matrices (defined on the common shape). -/
def matAdd (A B : Mat) : Mat := List.zipWith (List.zipWith (· + ·)) A B

/-- Elementwise (Hadamard) product of two matrices. -/
def matHadamard (A B : Mat) : Mat := List.zipWith (List.zipWith (· * ·)) A B

/-- Two matrices have the same shape: same row count and rowwise lengths. -/
def sameShape (A B : Mat) : Prop :=
  A.length = B.length ∧ ∀ i, (A.getD i []).length = (B.getD i []).length

theorem shuffleAux_perm : ∀ (n s : Nat) (l : List α), l.length = n →
    (shuffleAux s n l).Perm l := by
  intro n
  induction n with
  | zero =>
    intro s l h
    rw [List.length_eq_zero] at h
    subst h
    simp [shuffleAux]
  | succ n ih =>
    intro s l h
    cases l with
    | nil => simp at h
    | cons a t =>
      rw [shuffleAux]
      · have hklt : s % (a :: t).length < (a :: t).length :=
          Nat.mod_lt _ (by simp)
        cases hd : (a :: t).drop (s % (a :: t).length) with
        | nil =>
          exfalso
          have := List.drop_eq_nil_iff.mp hd
          omega
        | cons x rest =>
          have hlen : ((a :: t).take (s % (a :: t).length) ++ rest).length = n := by
            have h1 := List.length_take_of_le (Nat.le_of_lt hklt)
            have h2 := congrArg List.length hd
            simp only [List.length_drop, List.length_cons] at h2
            simp only [List.length_append, h1]
            simp only [List.length_cons] at h hklt h2 ⊢
            omega
          have hperm := ih (lcgNext s) _ hlen
          have heq : (a :: t).take (s % (a :: t).length) ++ x :: rest = a :: t := by
            rw [← hd, List.take_append_drop]
          refine (hperm.cons x).trans (List.Perm.trans List.perm_middle.symm ?_)
          rw [heq]
      · simp

/-- The seeded shuffle permutes its input. -/
theorem shuffle_perm (seed : Nat) (l : List α) : (shuffle seed l).Perm l :=
  shuffleAux_perm l.length seed l rfl

theorem shuffle_length (seed : Nat) (l : List α) :
    (shuffle seed l).length = l.length :=
  (shuffle_perm seed l).length_eq

theorem splitRow_fst_length (r : ℚ) (seed : Nat) (row : List ℚ) :
    (splitRow r seed row).1.length = row.length := by
  simp [splitRow]

theorem splitRow_snd_length (r : ℚ) (seed : Nat) (row : List ℚ) :
    (splitRow r seed row).2.length = row.length := by
  simp [splitRow]

theorem rowwiseSplit_fst_length (X : Mat) (r : ℚ) (seed : Nat) :
    (rowwiseSplit X r seed).1.length = X.length := by
  simp [rowwiseSplit]

theorem rowwiseSplit_snd_length (X : Mat) (r : ℚ) (seed : Nat) :
    (rowwiseSplit X r seed).2.length = X.length := by
  simp [rowwiseSplit]

theorem rowwiseSplit_fst_getElem (X : Mat) (r : ℚ) (seed : Nat) (i : Nat)
    (h : i < X.length) (h1 : i < (rowwiseSplit X r seed).1.length) :
    (rowwiseSplit X r seed).1[i] =
      (splitRow r (lcgNext (seed + i)) X[i]).1 := by
  simp [rowwiseSplit]

theorem rowwiseSplit_snd_getElem (X : Mat) (r : ℚ) (seed : Nat) (i : Nat)
    (h : i < X.length) (h1 : i < (rowwiseSplit X r seed).2.length) :
    (rowwiseSplit X r seed).2[i] =
      (splitRow r (lcgNext (seed + i)) X[i]).2 := by
  simp [rowwiseSplit]

theorem splitRow_add (r : ℚ) (seed : Nat) (row : List ℚ) :
    List.zipWith (· + ·) (splitRow r seed row).1 (splitRow r seed row).2 = row := by
  apply List.ext_getElem
  · simp [splitRow]
  · intro j h1 h2
    simp only [splitRow, List.getElem_zipWith, List.getElem_map, List.getElem_range]
    by_cases hm :
        j ∈ (shuffle seed (nonzeroIndices row)).take
          (⌊r * (nonzeroIndices row).length⌋).toNat <;>
      simp [hm, List.getElem?_eq_getElem h2]

theorem splitRow_hadamard (r : ℚ) (seed : Nat) (row : List ℚ) (j : Nat) :
    (List.zipWith (· * ·) (splitRow r seed row).1 (splitRow r seed row).2).getD j 0
      = 0 := by
  rcases Nat.lt_or_ge j row.length with h | h
  · rw [List.getD_eq_getElem _ 0 (by simp [splitRow]; omega)]
    simp only [splitRow, List.getElem_zipWith, List.getElem_map, List.getElem_range]
    by_cases hm :
        j ∈ (shuffle seed (nonzeroIndices row)).take
          (⌊r * (nonzeroIndices row).length⌋).toNat <;>
      simp [hm]
  · rw [List.getD_eq_default]
    simp [splitRow]
    omega

theorem rowwiseSplit_sameShape_fst (X : Mat) (r : ℚ) (seed : Nat) :
    sameShape (rowwiseSplit X r seed).1 X := by
  refine ⟨rowwiseSplit_fst_length X r seed, fun i => ?_⟩
  rcases Nat.lt_or_ge i X.length with h | h
  · rw [List.getD_eq_getElem _ [] (by rw [rowwiseSplit_fst_length]; exact h),
      List.getD_eq_getElem _ [] h,
      rowwiseSplit_fst_getElem X r seed i h (by rw [rowwiseSplit_fst_length]; exact h),
      splitRow_fst_length]
  · rw [List.getD_eq_default _ [] (by rw [rowwiseSplit_fst_length]; exact h),
      List.getD_eq_default _ [] h]

theorem rowwiseSplit_sameShape_snd (X : Mat) (r : ℚ) (seed : Nat) :
    sameShape (rowwiseSplit X r seed).2 X := by
  refine ⟨rowwiseSplit_snd_length X r seed, fun i => ?_⟩
  rcases Nat.lt_or_ge i X.length with h | h
  · rw [List.getD_eq_getElem _ [] (by rw [rowwiseSplit_snd_length]; exact h),
      List.getD_eq_getElem _ [] h,
      rowwiseSplit_snd_getElem X r seed i h (by rw [rowwiseSplit_snd_length]; exact h),
      splitRow_snd_length]
  · rw [List.getD_eq_default _ [] (by rw [rowwiseSplit_snd_length]; exact h),
      List.getD_eq_default _ [] h]

theorem rowwiseSplit_add (X : Mat) (r : ℚ) (seed : Nat) :
    matAdd (rowwiseSplit X r seed).1 (rowwiseSplit X r seed).2 = X := by
  apply List.ext_getElem
  · simp [matAdd, rowwiseSplit]
  · intro i h1 h2
    simp only [matAdd]
    rw [List.getElem_zipWith,
      rowwiseSplit_fst_getElem X r seed i h2 (by rw [rowwiseSplit_fst_length]; exact h2),
      rowwiseSplit_snd_getElem X r seed i h2 (by rw [rowwiseSplit_snd_length]; exact h2),
      splitRow_add]

theorem rowwiseSplit_hadamard_zero (X : Mat) (r : ℚ) (seed : Nat) (i j : Nat) :
    entry (matHadamard (rowwiseSplit X r seed).1 (rowwiseSplit X r seed).2) i j = 0 := by
  unfold entry
  rcases Nat.lt_or_ge i X.length with h | h
  · rw [List.getD_eq_getElem _ []
      (by simp [matHadamard, rowwiseSplit]; omega)]
    simp only [matHadamard]
    rw [List.getElem_zipWith,
      rowwiseSplit_fst_getElem X r seed i h (by rw [rowwiseSplit_fst_length]; exact h),
      rowwiseSplit_snd_getElem X r seed i h (by rw [rowwiseSplit_snd_length]; exact h)]
    exact splitRow_hadamard r (lcgNext (seed + i)) X[i] j
  · rw [List.getD_eq_default _ []
      (by simp [matHadamard, rowwiseSplit]; omega)]
    simp

/-- **C1.** For every interaction matrix `X`, every `test_ratio r ∈ (0,1)` and
every seed, `rowwise_train_test_split` returns two matrices of the same shape
as `X` whose elementwise sum is exactly `X` and whose elementwise product has
no nonzero entry (disjoint supports). -/
theorem rowwiseSplit_partition (X : Mat) (r : ℚ) (seed : Nat)
    (h0 : 0 < r) (h1 : r < 1) :
    sameShape (rowwiseSplit X r seed).1 X ∧
    sameShape (rowwiseSplit X r seed).2 X ∧
    matAdd (rowwiseSplit X r seed).1 (rowwiseSplit X r seed).2 = X ∧
    ∀ i j, entry (matHadamard (rowwiseSplit X r seed).1 (rowwiseSplit X r seed).2) i j
      = 0 := by
  exact ⟨rowwiseSplit_sameShape_fst X r seed, rowwiseSplit_sameShape_snd X r seed,
    rowwiseSplit_add X r seed, fun i j => rowwiseSplit_hadamard_zero X r seed i j⟩

/-- Witness for C1 at the concrete matrix `[[1,0,2,3],[0,4,5,0],[6,0,0,0]]`,
`test_ratio = 1/2`, seed `0`. -/
theorem rowwiseSplit_partition_witness :
    (0 : ℚ) < mkRat 1 2 ∧ mkRat 1 2 < 1 ∧
    (sameShape (rowwiseSplit [[1,0,2,3],[0,4,5,0],[6,0,0,0]] (mkRat 1 2) 0).1
        [[1,0,2,3],[0,4,5,0],[6,0,0,0]] ∧
     sameShape (rowwiseSplit [[1,0,2,3],[0,4,5,0],[6,0,0,0]] (mkRat 1 2) 0).2
        [[1,0,2,3],[0,4,5,0],[6,0,0,0]] ∧
     matAdd (rowwiseSplit [[1,0,2,3],[0,4,5,0],[6,0,0,0]] (mkRat 1 2) 0).1
        (rowwiseSplit [[1,0,2,3],[0,4,5,0],[6,0,0,0]] (mkRat 1 2) 0).2
       = [[1,0,2,3],[0,4,5,0],[6,0,0,0]] ∧
     ∀ i j,
       entry (matHadamard (rowwiseSplit [[1,0,2,3],[0,4,5,0],[6,0,0,0]] (mkRat 1 2) 0).1
         (rowwiseSplit [[1,0,2,3],[0,4,5,0],[6,0,0,0]] (mkRat 1 2) 0).2) i j = 0) :=
  ⟨by decide, by decide,
   rowwiseSplit_partition [[1,0,2,3],[0,4,5,0],[6,0,0,0]] (mkRat 1 2) 0
     (by decide) (by decide)⟩

/-! ## Evaluator -/

/-- Insert a column index into a list of column indices that is sorted by
descending score, keeping equal-score ties in ascending index order (the
index being inserted always comes from the left of the already-inserted
ones in `List.range`, so placing it before equal scores is stable). -/
def insertByScore (s : List ℚ) (j : Nat) : List Nat → List Nat
  | [] => [j]
  | k :: rest =>
    if s.getD k 0 ≤ s.getD j 0 then j :: k :: rest
    else k :: insertByScore s j rest

/-- Modelled from the spec: the Evaluator's ranking of one score row — column
indices sorted by descending score, ties broken by ascending column index. -/
def ranking (s : List ℚ) : List Nat :=
  (List.range s.length).foldr (insertByScore s) []

/-- The top-`K` recommended list of one score row. -/
def topK (K : Nat) (s : List ℚ) : List Nat := (ranking s).take K

/-- The held-out ground-truth item set of user `u` (its nonzero columns). -/
def gtItems (G : Mat) (u : Nat) : List Nat := nonzeroIndices (G.getD u [])

/-- Modelled from the spec: a user is eligible for an averaged metric iff its
held-out ground-truth item set is nonempty. -/
def eligibleUsers (G : Mat) : List Nat :=
  (List.range G.length).filter (fun u => !(gtItems G u).isEmpty)

/-- Modelled from the spec: the averaging common to `hit`, `recall`,
`precision`, `map` and `ndcg` — the mean of a per-user value over the
eligible users only; `none` (NaN, from `np.nanmean` of an empty slice) when
no user is eligible. -/
def averageOverEligible (G : Mat) (f : Nat → ℚ) : Option ℚ :=
  if (eligibleUsers G).isEmpty then none
  else some (((eligibleUsers G).map f).sum / (eligibleUsers G).length)

/-- Whether user `u`'s top-`K` list contains a ground-truth item. -/
def isHit (K : Nat) (G S : Mat) (u : Nat) : Bool :=
  (topK K (S.getD u [])).any (fun j => decide (j ∈ gtItems G u))

/-- Per-user `hit` value. -/
def hitPU (K : Nat) (G S : Mat) (u : Nat) : ℚ := if isHit K G S u then 1 else 0

/-- The ground-truth items of `u` present in its top-`K` list, in rank order. -/
def hitItems (K : Nat) (G S : Mat) (u : Nat) : List Nat :=
  (topK K (S.getD u [])).filter (fun j => decide (j ∈ gtItems G u))

/-- Per-user `recall` value: `|R_u ∩ G_u| / |G_u|`. -/
def recallPU (K : Nat) (G S : Mat) (u : Nat) : ℚ :=
  (hitItems K G S u).length / (gtItems G u).length

/-- Per-user `precision` value: `|R_u ∩ G_u| / K`. -/
def precisionPU (K : Nat) (G S : Mat) (u : Nat) : ℚ :=
  (hitItems K G S u).length / K

/-- The 1-based ranks (within the top-`K` list) at which ground-truth items
of user `u` occur, in ascending order. -/
def hitRanks (K : Nat) (G S : Mat) (u : Nat) : List Nat :=
  ((topK K (S.getD u [])).enum.filter (fun p => decide (p.2 ∈ gtItems G u))).map
    (fun p => p.1 + 1)

/-- Per-user `map` value:
`(Σ_{i-th hit at rank r} i / r) / min(|G_u|, K)`. -/
def mapPU (K : Nat) (G S : Mat) (u : Nat) : ℚ :=
  ((hitRanks K G S u).enum.map (fun p => ((p.1 + 1 : ℚ)) / (p.2 : ℚ))).sum /
    (min (gtItems G u).length K)

/-- Modelled from the spec: the rank-`r` DCG discount.  The library uses
`1 / log2(r + 1)`, which is irrational; this computable rational stand-in is
positive and strictly decreasing in `r`, and no claim in scope depends on
the numeric discount values (only on the averaging structure of `ndcg`). -/
def dcgWeight (r : Nat) : ℚ := mkRat 1 r

/-- Per-user `ndcg` value: `DCG / IDCG`. -/
def ndcgPU (K : Nat) (G S : Mat) (u : Nat) : ℚ :=
  ((hitRanks K G S u).map dcgWeight).sum /
    ((List.range (min (gtItems G u).length K)).map (fun i => dcgWeight (i + 1))).sum

/-- The concatenation of all users' top-`K` lists (all users, not only the
eligible ones — the diversity metrics use every row). -/
def allTopK (K : Nat) (S : Mat) : List Nat :=
  (List.range S.length).bind (fun u => topK K (S.getD u []))

/-- `appeared_item@K`: the number of distinct items in any top-`K` list. -/
def appearedItem (K : Nat) (S : Mat) : Nat := (allTopK K S).dedup.length

/-- The per-item appearance counts across all users' top-`K` lists. -/
def itemCounts (K : Nat) (S : Mat) : List Nat :=
  (allTopK K S).dedup.map (fun j => (allTopK K S).count j)

/-- `gini_index@K`: Gini coefficient of the appearance-count distribution,
via the sorted-counts formula `Σ_i (2i - m - 1) c_(i) / (m Σ c)`. -/
def giniIndex (K : Nat) (S : Mat) : ℚ :=
  let cs := (itemCounts K S).mergeSort (· ≤ ·)
  let m := cs.length
  let total := cs.sum
  (cs.enum.map (fun p => ((2 * (p.1 + 1) : ℚ) - m - 1) * p.2)).sum /
    (m * (total : ℚ))

/-- Modelled from the spec: a computable rational stand-in for the natural
logarithm used by `entropy@K` (irrational in the library; no claim in scope
depends on entropy's numeric value). -/
def lnSurrogate (q : ℚ) : ℚ := q - 1

/-- `entropy@K`: Shannon entropy of the appearance-count distribution,
with the logarithm replaced by its computable stand-in. -/
def entropyVal (K : Nat) (S : Mat) : ℚ :=
  let cs := itemCounts K S
  let total : ℚ := cs.sum
  Neg.neg (cs.map (fun c => ((c : ℚ) / total) * lnSurrogate ((c : ℚ) / total))).sum

/-- Aggregate `hit@K` over a ground-truth block and an aligned score block. -/
def hitAt (K : Nat) (G S : Mat) : Option ℚ := averageOverEligible G (hitPU K G S)

/-- The Evaluator: held-out ground truth, the row offset of the evaluated
block inside a joint score matrix, and the target cutoff/metric driving the
scalar objective. -/
structure Evaluator where
  G : Mat
  offset : Nat
  cutoff : Nat
  target_metric : String

/-- The rows `[offset, offset + G.length)` of a score matrix, the only ones
the Evaluator reads. -/
def evalScoreBlock (ev : Evaluator) (S : Mat) : Mat :=
  (S.drop ev.offset).take ev.G.length

/-- The metric names in the order of the notebook's `get_scores` output
(`OrderedDict([('hit@5', ...), ('recall@5', ...), ...])`). -/
def metricNames : List String :=
  ["hit", "recall", "ndcg", "map", "precision", "gini_index", "entropy",
   "appeared_item"]

/-- The `"<metric>@<cutoff>"` key of a MetricResult entry. -/
def metricKey (m : String) (c : Nat) : String := m ++ "@" ++ toString c

/-- The value of one named metric at one cutoff (`none` embeds NaN). -/
def metricValue (G S : Mat) (m : String) (c : Nat) : Option ℚ :=
  if m = "hit" then averageOverEligible G (hitPU c G S)
  else if m = "recall" then averageOverEligible G (recallPU c G S)
  else if m = "ndcg" then averageOverEligible G (ndcgPU c G S)
  else if m = "map" then averageOverEligible G (mapPU c G S)
  else if m = "precision" then averageOverEligible G (precisionPU c G S)
  else if m = "gini_index" then some (giniIndex c S)
  else if m = "entropy" then some (entropyVal c S)
  else if m = "appeared_item" then some ((appearedItem c S : ℚ))
  else none

/-- Modelled from the spec and the notebook outputs:
`Evaluator.get_scores(recommender, cutoffs)` — an ordered mapping listing,
for each requested cutoff in turn, every metric at that cutoff. -/
def getScores (ev : Evaluator) (S : Mat) (cutoffs : List Nat) :
    List (String × Option ℚ) :=
  cutoffs.bind (fun c =>
    metricNames.map (fun m => (metricKey m c, metricValue ev.G (evalScoreBlock ev S) m c)))

/-- Modelled from the notebook usage `evaluator.get_score(rec)['ndcg']`:
`Evaluator.get_score(recommender)` — the mapping from metric name to value
at the Evaluator's configured cutoff. -/
def getScore (ev : Evaluator) (S : Mat) : List (String × Option ℚ) :=
  metricNames.map (fun m => (m, metricValue ev.G (evalScoreBlock ev S) m ev.cutoff))

/-- Modelled from the spec: the non-fatal warnings of a metric computation —
a degenerate-metric warning exactly when no user is eligible. -/
def degenerateWarnings (ev : Evaluator) : List String :=
  if (eligibleUsers ev.G).isEmpty then ["DegenerateMetricWarning: Mean of empty slice"]
  else []

/-- `get_scores` together with its warnings; a total function — the
degenerate case warns instead of raising. -/
def getScoresWithWarnings (ev : Evaluator) (S : Mat) (cutoffs : List Nat) :
    List (String × Option ℚ) × List String :=
  (getScores ev S cutoffs, degenerateWarnings ev)

/-! ## C2: eligibility and exclusion from the averaging denominator -/

theorem mem_eligibleUsers (G : Mat) (u : Nat) :
    u ∈ eligibleUsers G ↔ u < G.length ∧ gtItems G u ≠ [] := by
  simp [eligibleUsers, List.mem_filter, List.mem_range]

theorem averageOverEligible_congr (G : Mat) (f g : Nat → ℚ)
    (h : ∀ u ∈ eligibleUsers G, f u = g u) :
    averageOverEligible G f = averageOverEligible G g := by
  unfold averageOverEligible
  rw [List.map_congr_left h]

/-- The averaged metrics read a score matrix only at the eligible users'
rows. -/
theorem metricValue_ignores_ineligible (G S S' : Mat) (c : Nat) (m : String)
    (hm : m ∈ ["hit", "recall", "ndcg", "map", "precision"])
    (hS : ∀ u ∈ eligibleUsers G, S.getD u [] = S'.getD u []) :
    metricValue G S m c = metricValue G S' m c := by
  have hhit : ∀ u ∈ eligibleUsers G, hitPU c G S u = hitPU c G S' u := by
    intro u hu
    unfold hitPU isHit
    rw [hS u hu]
  have hitems : ∀ u ∈ eligibleUsers G, hitItems c G S u = hitItems c G S' u := by
    intro u hu
    unfold hitItems
    rw [hS u hu]
  have hranks : ∀ u ∈ eligibleUsers G, hitRanks c G S u = hitRanks c G S' u := by
    intro u hu
    unfold hitRanks
    rw [hS u hu]
  fin_cases hm
  · simp only [metricValue, if_pos rfl]
    exact averageOverEligible_congr G _ _ hhit
  · simp only [metricValue]
    norm_num
    exact averageOverEligible_congr G _ _ (fun u hu => by
      unfold recallPU
      rw [hitems u hu])
  · simp only [metricValue]
    norm_num
    exact averageOverEligible_congr G _ _ (fun u hu => by
      unfold ndcgPU
      rw [hranks u hu])
  · simp only [metricValue]
    norm_num
    exact averageOverEligible_congr G _ _ (fun u hu => by
      unfold mapPU
      rw [hranks u hu])
  · simp only [metricValue]
    norm_num
    exact averageOverEligible_congr G _ _ (fun u hu => by
      unfold precisionPU
      rw [hitems u hu])

/-- The ground-truth block of the spec's concrete 4-user, 5-item scenario:
rows `{2}`, `{}`, `{0,4}`, `{1}`. -/
def specG : Mat := [[0,0,1,0,0], [0,0,0,0,0], [1,0,0,0,1], [0,1,0,0,0]]

/-- Row 0 of the scenario's score matrix: `[0.1, 0.9, 0.8, 0.2, 0.3]`. -/
def specRow0 : List ℚ := [mkRat 1 10, mkRat 9 10, mkRat 8 10, mkRat 2 10, mkRat 3 10]

/-- **C2.** A user is eligible iff its held-out ground-truth set is nonempty;
ineligible users are excluded from the averaging of `hit`, `recall`,
`precision`, `map` and `ndcg` (their score rows cannot influence the
result); in the spec's 4-user scenario at cutoff 2 the eligible users are
exactly rows 0, 2, 3, the aggregate `hit@2` is the mean over those three
rows only, and row 0 (top-2 list `[1,2]`) is a hit. -/
theorem eligibility_excludes_empty_groundtruth :
    (∀ (G : Mat) (u : Nat), u ∈ eligibleUsers G ↔ u < G.length ∧ gtItems G u ≠ []) ∧
    (∀ (G S S' : Mat) (c : Nat) (m : String),
      m ∈ ["hit", "recall", "ndcg", "map", "precision"] →
      (∀ u ∈ eligibleUsers G, S.getD u [] = S'.getD u []) →
      metricValue G S m c = metricValue G S' m c) ∧
    eligibleUsers specG = [0, 2, 3] ∧
    (∀ s1 s2 s3 : List ℚ,
      hitAt 2 specG [specRow0, s1, s2, s3] =
        some ((hitPU 2 specG [specRow0, s1, s2, s3] 0 +
               hitPU 2 specG [specRow0, s1, s2, s3] 2 +
               hitPU 2 specG [specRow0, s1, s2, s3] 3) / 3)) ∧
    (∀ s1 s2 s3 : List ℚ, topK 2 specRow0 = [1, 2] ∧
      hitPU 2 specG [specRow0, s1, s2, s3] 0 = 1) := by
  refine ⟨mem_eligibleUsers, metricValue_ignores_ineligible, by decide, ?_, ?_⟩
  · intro s1 s2 s3
    unfold hitAt averageOverEligible
    rw [show eligibleUsers specG = [0, 2, 3] from by decide]
    rw [if_neg (by decide)]
    simp only [List.map, List.sum_cons, List.sum_nil, List.length_cons, List.length_nil]
    congr 1
    push_cast
    ring
  · intro s1 s2 s3
    refine ⟨by decide, ?_⟩
    simp [hitPU, isHit]
    decide

/-- Witness for C2: the eligibility equivalence at row 1 of the scenario, and
invariance of `hit@2` under changing the (ineligible) row 1 scores. -/
theorem eligibility_excludes_empty_groundtruth_witness :
    ((1 ∈ eligibleUsers specG ↔ 1 < specG.length ∧ gtItems specG 1 ≠ []) ∧
     metricValue specG [specRow0, [], [], []] "hit" 2 =
       metricValue specG [specRow0, [1, 1, 1, 1, 1], [], []] "hit" 2) :=
  ⟨eligibility_excludes_empty_groundtruth.1 specG 1,
   eligibility_excludes_empty_groundtruth.2.1 specG [specRow0, [], [], []]
     [specRow0, [1, 1, 1, 1, 1], [], []] 2 "hit" (by decide) (by decide)⟩

/-! ## C10: cutoff monotonicity of hit and appeared_item -/

theorem topK_take (K1 K2 : Nat) (h : K1 ≤ K2) (s : List ℚ) :
    topK K1 s = (topK K2 s).take K1 := by
  unfold topK
  rw [List.take_take, Nat.min_eq_left h]

theorem isHit_mono (K1 K2 : Nat) (h : K1 ≤ K2) (G S : Mat) (u : Nat)
    (hh : isHit K1 G S u = true) : isHit K2 G S u = true := by
  unfold isHit at hh ⊢
  rw [List.any_eq_true] at hh ⊢
  obtain ⟨j, hj, hgt⟩ := hh
  rw [topK_take K1 K2 h] at hj
  exact ⟨j, List.take_subset _ _ hj, hgt⟩

theorem hitPU_mono (K1 K2 : Nat) (h : K1 ≤ K2) (G S : Mat) (u : Nat) :
    hitPU K1 G S u ≤ hitPU K2 G S u := by
  unfold hitPU
  by_cases h1 : isHit K1 G S u = true
  · rw [if_pos h1, if_pos (isHit_mono K1 K2 h G S u h1)]
  · rw [if_neg h1]
    by_cases h2 : isHit K2 G S u = true <;> simp [h2]

theorem allTopK_subset (K1 K2 : Nat) (h : K1 ≤ K2) (S : Mat) :
    allTopK K1 S ⊆ allTopK K2 S := by
  intro j hj
  unfold allTopK at hj ⊢
  rw [List.mem_bind] at hj ⊢
  obtain ⟨u, hu, hju⟩ := hj
  refine ⟨u, hu, ?_⟩
  rw [topK_take K1 K2 h] at hju
  exact List.take_subset _ _ hju

theorem appearedItem_mono (K1 K2 : Nat) (h : K1 ≤ K2) (S : Mat) :
    appearedItem K1 S ≤ appearedItem K2 S := by
  unfold appearedItem
  rw [← List.card_toFinset, ← List.card_toFinset]
  apply Finset.card_le_card
  intro j hj
  rw [List.mem_toFinset] at hj ⊢
  exact allTopK_subset K1 K2 h S hj

/-- **C10.** For a fixed score matrix and ground truth and cutoffs
`K1 ≤ K2`, each user's top-`K1` list is a prefix of its top-`K2` list (it
is `take K1` of it), `appeared_item@K1 ≤ appeared_item@K2`, and
`hit@K1 ≤ hit@K2`. -/
theorem hit_appeared_cutoff_monotone (G S : Mat) (K1 K2 : Nat) (h : K1 ≤ K2) :
    (∀ s : List ℚ, topK K1 s = (topK K2 s).take K1) ∧
    appearedItem K1 S ≤ appearedItem K2 S ∧
    ∀ q1, hitAt K1 G S = some q1 →
      ∃ q2, hitAt K2 G S = some q2 ∧ q1 ≤ q2 := by
  refine ⟨topK_take K1 K2 h, appearedItem_mono K1 K2 h S, ?_⟩
  intro q1 hq1
  unfold hitAt averageOverEligible at hq1 ⊢
  by_cases he : (eligibleUsers G).isEmpty
  · rw [if_pos he] at hq1
    exact absurd hq1 (by simp)
  · rw [if_neg he] at hq1 ⊢
    refine ⟨_, rfl, ?_⟩
    have hq1' : q1 = ((eligibleUsers G).map (hitPU K1 G S)).sum /
        ((eligibleUsers G).length : ℚ) := by
      injection hq1 with h'
      exact h'.symm
    subst hq1'
    have hlen : (0 : ℚ) < ((eligibleUsers G).length : ℚ) := by
      have : eligibleUsers G ≠ [] := by
        intro hnil
        rw [hnil] at he
        exact he rfl
      have := List.length_pos.mpr this
      exact_mod_cast this
    rw [div_le_div_iff_of_pos_right hlen]
    apply List.sum_le_sum
    intro u hu
    exact hitPU_mono K1 K2 h G S u

/-- Witness for C10 at the scenario ground truth and a concrete score
matrix, cutoffs `1 ≤ 2`. -/
theorem hit_appeared_cutoff_monotone_witness :
    (1 : Nat) ≤ 2 ∧
    ((∀ s : List ℚ, topK 1 s = (topK 2 s).take 1) ∧
     appearedItem 1 [specRow0, specRow0, specRow0, specRow0] ≤
       appearedItem 2 [specRow0, specRow0, specRow0, specRow0] ∧
     ∀ q1, hitAt 1 specG [specRow0, specRow0, specRow0, specRow0] = some q1 →
       ∃ q2, hitAt 2 specG [specRow0, specRow0, specRow0, specRow0] = some q2 ∧
         q1 ≤ q2) :=
  ⟨by decide,
   hit_appeared_cutoff_monotone specG [specRow0, specRow0, specRow0, specRow0]
     1 2 (by decide)⟩

/-! ## C3: MetricResult key ordering -/

/-- The ordering stated by the spec's words ("metric-major: all cutoffs for
one metric appear consecutively in ascending cutoff order"), written down
for comparison with the ordering the notebooks actually print. -/
def metricMajorKeys (cutoffs : List Nat) : List String :=
  metricNames.bind (fun m => cutoffs.map (metricKey m))

/-- Counterexample to C3: with cutoffs `[5, 10]`, the `get_scores` key
sequence printed by the notebook
(`hit@5, recall@5, …, appeared_item@5, hit@10, …`) is not metric-major. -/
theorem getScores_keys_not_metric_major :
    ¬ ((getScores ⟨[[1]], 0, 5, "ndcg"⟩ [[1]] [5, 10]).map Prod.fst
        = metricMajorKeys [5, 10]) := by decide

/-- **C3 (amended).** The MetricResult key ordering is cutoff-major: for
each requested cutoff in request order, all metrics appear consecutively in
the fixed order hit, recall, ndcg, map, precision, gini_index, entropy,
appeared_item; the ordering is deterministic (a pure function of the
requested cutoffs). -/
theorem getScores_map_fst (ev : Evaluator) (S : Mat) (cutoffs : List Nat) :
    (getScores ev S cutoffs).map Prod.fst
      = cutoffs.bind (fun c => metricNames.map (fun m => metricKey m c)) := by
  simp only [getScores, List.map_bind, List.map_map]
  rfl

theorem getScores_keys_cutoff_major (ev : Evaluator) (S : Mat)
    (cutoffs : List Nat) :
    (getScores ev S cutoffs).map Prod.fst
      = cutoffs.bind (fun c => metricNames.map (fun m => metricKey m c)) ∧
    (getScores ev S cutoffs).length = metricNames.length * cutoffs.length := by
  constructor
  · exact getScores_map_fst ev S cutoffs
  · simp only [getScores, List.length_bind]
    have hconst : (List.length ∘ fun c => List.map
        (fun m => (metricKey m c, metricValue ev.G (evalScoreBlock ev S) m c))
        metricNames) = fun _ => metricNames.length := by
      funext c
      simp
    rw [hconst, List.map_const', List.sum_replicate, smul_eq_mul, mul_comm]

/-! ## C4: get_score returns a mapping, not a scalar -/

/-- The Evaluator of the notebook's `get_score` cell, over the scenario
data. -/
def specEvaluator : Evaluator := ⟨specG, 0, 20, "ndcg"⟩

/-- Counterexample to C4: `get_score` does not return only the target
metric's scalar — its result also carries entries for other metrics (the
notebook reads it as `evaluator.get_score(rec)['ndcg']`). -/
theorem getScore_not_scalar :
    ¬ (∀ e ∈ getScore specEvaluator [specRow0, specRow0, specRow0, specRow0],
        e.1 = specEvaluator.target_metric) := by decide

/-- **C4 (amended).** `get_score(recommender)` returns the mapping from
metric name to value at the Evaluator's configured cutoff, from which the
target metric's scalar is obtained by lookup; `get_scores(recommender,
cutoffs)` covers every requested cutoff and every metric. -/
theorem getScore_lookup_and_getScores_cover (ev : Evaluator) (S : Mat)
    (cutoffs : List Nat) :
    (∀ m ∈ metricNames,
      (getScore ev S).lookup m
        = some (metricValue ev.G (evalScoreBlock ev S) m ev.cutoff)) ∧
    (getScore ev S).map Prod.fst = metricNames ∧
    ∀ c ∈ cutoffs, ∀ m ∈ metricNames,
      (metricKey m c, metricValue ev.G (evalScoreBlock ev S) m c)
        ∈ getScores ev S cutoffs := by
  refine ⟨?_, ?_, ?_⟩
  · intro m hm
    unfold getScore
    fin_cases hm <;> rfl
  · rfl
  · intro c hc m hm
    unfold getScores
    rw [List.mem_bind]
    exact ⟨c, hc, List.mem_map.mpr ⟨m, hm, rfl⟩⟩

/-- Witness for C4 (amended): the `ndcg` lookup at cutoff 20 and the
`hit@20` coverage, on the scenario data. -/
theorem getScore_lookup_and_getScores_cover_witness :
    ("ndcg" ∈ metricNames ∧
      (getScore specEvaluator [specRow0, specRow0, specRow0, specRow0]).lookup "ndcg"
        = some (metricValue specEvaluator.G
            (evalScoreBlock specEvaluator [specRow0, specRow0, specRow0, specRow0])
            "ndcg" specEvaluator.cutoff)) ∧
    (20 ∈ [20] ∧ "hit" ∈ metricNames ∧
      (metricKey "hit" 20,
        metricValue specEvaluator.G
          (evalScoreBlock specEvaluator [specRow0, specRow0, specRow0, specRow0])
          "hit" 20)
        ∈ getScores specEvaluator [specRow0, specRow0, specRow0, specRow0] [20]) :=
  ⟨⟨by decide,
    (getScore_lookup_and_getScores_cover specEvaluator
      [specRow0, specRow0, specRow0, specRow0] [20]).1 "ndcg" (by decide)⟩,
   ⟨by decide, by decide,
    (getScore_lookup_and_getScores_cover specEvaluator
      [specRow0, specRow0, specRow0, specRow0] [20]).2.2 20 (by decide) "hit"
      (by decide)⟩⟩

/-! ## C6: degenerate metrics warn and report NaN -/

/-- **C6.** When no user is eligible, every averaged metric is reported as
NaN (`none`), a degenerate-metric warning is emitted, and the computation
still returns the full MetricResult (it does not raise). -/
theorem degenerate_metric_warns_nan (ev : Evaluator) (S : Mat)
    (cutoffs : List Nat) (hdeg : eligibleUsers ev.G = []) :
    (∀ c ∈ cutoffs, ∀ m ∈ ["hit", "recall", "ndcg", "map", "precision"],
      (metricKey m c, (none : Option ℚ)) ∈ (getScoresWithWarnings ev S cutoffs).1) ∧
    (getScoresWithWarnings ev S cutoffs).2
      = ["DegenerateMetricWarning: Mean of empty slice"] ∧
    ((getScoresWithWarnings ev S cutoffs).1).map Prod.fst
      = cutoffs.bind (fun c => metricNames.map (fun m => metricKey m c)) := by
  have hempty : (eligibleUsers ev.G).isEmpty = true := by
    rw [hdeg]
    rfl
  refine ⟨?_, ?_, ?_⟩
  · intro c hc m hm
    have hval : metricValue ev.G (evalScoreBlock ev S) m c = none := by
      fin_cases hm <;>
        simp [metricValue, averageOverEligible, hempty]
    unfold getScoresWithWarnings getScores
    rw [List.mem_bind]
    refine ⟨c, hc, List.mem_map.mpr ⟨m, ?_, by rw [hval]⟩⟩
    fin_cases hm <;> decide
  · unfold getScoresWithWarnings degenerateWarnings
    rw [if_pos hempty]
  · exact getScores_map_fst ev S cutoffs

/-- Witness for C6: a one-user ground-truth block with no interactions. -/
theorem degenerate_metric_warns_nan_witness :
    eligibleUsers (Evaluator.G ⟨[[0, 0]], 0, 2, "ndcg"⟩) = [] ∧
    ((∀ c ∈ [2], ∀ m ∈ ["hit", "recall", "ndcg", "map", "precision"],
      (metricKey m c, (none : Option ℚ))
        ∈ (getScoresWithWarnings ⟨[[0, 0]], 0, 2, "ndcg"⟩ [[1, 2]] [2]).1) ∧
     (getScoresWithWarnings ⟨[[0, 0]], 0, 2, "ndcg"⟩ [[1, 2]] [2]).2
       = ["DegenerateMetricWarning: Mean of empty slice"] ∧
     ((getScoresWithWarnings ⟨[[0, 0]], 0, 2, "ndcg"⟩ [[1, 2]] [2]).1).map Prod.fst
       = [2].bind (fun c => metricNames.map (fun m => metricKey m c))) :=
  ⟨by decide,
   degenerate_metric_warns_nan ⟨[[0, 0]], 0, 2, "ndcg"⟩ [[1, 2]] [2] (by decide)⟩

/-! ## C7: determinism -/

/-- **C7.** The splitter and the Evaluator are deterministic: runs with
equal seeds and equal inputs produce equal outputs, and evaluating the same
fixed score matrix and ground truth twice yields the identical
MetricResult.  (In this embedding both are pure functions — the
pseudo-random state is fully determined by the seed argument — so
determinism and idempotence hold by construction.) -/
theorem split_and_evaluator_deterministic (X X' : Mat) (r r' : ℚ) (s s' : Nat)
    (ev ev' : Evaluator) (Sm Sm' : Mat) (cs cs' : List Nat)
    (hX : X = X') (hr : r = r') (hs : s = s')
    (hev : ev = ev') (hS : Sm = Sm') (hc : cs = cs') :
    rowwiseSplit X r s = rowwiseSplit X' r' s' ∧
    getScores ev Sm cs = getScores ev' Sm' cs' ∧
    getScores ev Sm cs = getScores ev Sm cs := by
  subst hX hr hs hev hS hc
  exact ⟨rfl, rfl, rfl⟩

/-- Witness for C7 at a concrete split input and the scenario evaluation. -/
theorem split_and_evaluator_deterministic_witness :
    rowwiseSplit [[1, 0, 2]] (mkRat 1 2) 7 = rowwiseSplit [[1, 0, 2]] (mkRat 1 2) 7 ∧
    getScores specEvaluator [specRow0] [2] = getScores specEvaluator [specRow0] [2] ∧
    getScores specEvaluator [specRow0] [2] = getScores specEvaluator [specRow0] [2] :=
  split_and_evaluator_deterministic [[1, 0, 2]] [[1, 0, 2]] (mkRat 1 2) (mkRat 1 2)
    7 7 specEvaluator specEvaluator [specRow0] [specRow0] [2] [2]
    rfl rfl rfl rfl rfl rfl

/-! ## C5: user holdout split -/

/-- A fixed user set's learning interactions and held-out ground truth. -/
structure UserTrainTestInteractionPair where
  X_train : Mat
  X_test : Mat

/-- The number of users of a pair (its row count). -/
def UserTrainTestInteractionPair.n_users (p : UserTrainTestInteractionPair) : Nat :=
  p.X_train.length

/-- Modelled from the spec: the user-block assignment of
`split_dataframe_partial_user_holdout` — shuffle the distinct users with
the seeded permutation, assign the first `round(val_user_ratio * n)` to
val, the next `round(test_user_ratio * n)` to test, and the rest to
train. -/
def userHoldoutBlocks (users : List Nat) (valRatio testRatio : ℚ) (seed : Nat) :
    List Nat × List Nat × List Nat :=
  ((shuffle seed users).drop ((round (valRatio * users.length)).toNat
      + (round (testRatio * users.length)).toNat),
   (shuffle seed users).take (round (valRatio * users.length)).toNat,
   ((shuffle seed users).drop (round (valRatio * users.length)).toNat).take
     (round (testRatio * users.length)).toNat)

/-- Modelled from the spec: the train users' pair — `X_train` is all their
interactions and `X_test` is an all-zero matrix of equal shape. -/
def trainUsersPair (rows : Mat) : UserTrainTestInteractionPair :=
  ⟨rows, rows.map (fun row => List.replicate row.length 0)⟩

/-- Modelled from the spec: the val/test users' pair — `rowwise_split`
applied to their rows with the block's heldout ratio. -/
def heldoutUsersPair (rows : Mat) (heldoutRatio : ℚ) (seed : Nat) :
    UserTrainTestInteractionPair :=
  ⟨(rowwiseSplit rows heldoutRatio seed).1, (rowwiseSplit rows heldoutRatio seed).2⟩

theorem userHoldoutBlocks_partition (users : List Nat) (valRatio testRatio : ℚ)
    (seed : Nat)
    (h : (round (valRatio * users.length)).toNat
        + (round (testRatio * users.length)).toNat ≤ users.length) :
    (userHoldoutBlocks users valRatio testRatio seed).2.1
        ++ (userHoldoutBlocks users valRatio testRatio seed).2.2
        ++ (userHoldoutBlocks users valRatio testRatio seed).1
      = shuffle seed users ∧
    (userHoldoutBlocks users valRatio testRatio seed).2.1.length
      = (round (valRatio * users.length)).toNat ∧
    (userHoldoutBlocks users valRatio testRatio seed).2.2.length
      = (round (testRatio * users.length)).toNat ∧
    (userHoldoutBlocks users valRatio testRatio seed).1.length
      = users.length - (round (valRatio * users.length)).toNat
        - (round (testRatio * users.length)).toNat := by
  unfold userHoldoutBlocks
  have hlen : (shuffle seed users).length = users.length := shuffle_length seed users
  refine ⟨?_, ?_, ?_, ?_⟩
  · rw [List.append_assoc, ← List.drop_drop, List.take_append_drop,
      List.take_append_drop]
  · rw [List.length_take, hlen]
    omega
  · rw [List.length_take, List.length_drop, hlen]
    omega
  · rw [List.length_drop, hlen]
    omega

/-- **C5.** `user_holdout_split` assigns the first `round(val_user_ratio *
n_users)` shuffled users to the val block and the next
`round(test_user_ratio * n_users)` to the test block, the remaining users
to the train block (the three blocks partition the shuffled user list with
exactly those sizes); and the train users' pair has an all-zero `X_test`
of the same shape as its `X_train`. -/
theorem userHoldoutSplit_blocks_and_train_zero (users : List Nat)
    (valRatio testRatio : ℚ) (seed : Nat) (rows : Mat)
    (h : (round (valRatio * users.length)).toNat
        + (round (testRatio * users.length)).toNat ≤ users.length) :
    ((userHoldoutBlocks users valRatio testRatio seed).2.1
        ++ (userHoldoutBlocks users valRatio testRatio seed).2.2
        ++ (userHoldoutBlocks users valRatio testRatio seed).1
      = shuffle seed users ∧
     (userHoldoutBlocks users valRatio testRatio seed).2.1.length
      = (round (valRatio * users.length)).toNat ∧
     (userHoldoutBlocks users valRatio testRatio seed).2.2.length
      = (round (testRatio * users.length)).toNat ∧
     (userHoldoutBlocks users valRatio testRatio seed).1.length
      = users.length - (round (valRatio * users.length)).toNat
        - (round (testRatio * users.length)).toNat) ∧
    sameShape (trainUsersPair rows).X_test (trainUsersPair rows).X_train ∧
    (∀ i j, entry (trainUsersPair rows).X_test i j = 0) ∧
    (trainUsersPair rows).n_users = rows.length := by
  refine ⟨userHoldoutBlocks_partition users valRatio testRatio seed h, ⟨?_, ?_⟩, ?_, rfl⟩
  · simp [trainUsersPair]
  · intro i
    unfold trainUsersPair
    rcases Nat.lt_or_ge i rows.length with hi | hi
    · rw [List.getD_eq_getElem _ [] (by simpa using hi), List.getD_eq_getElem _ [] hi]
      simp
    · rw [List.getD_eq_default _ [] (by simpa using hi), List.getD_eq_default _ [] hi]
  · intro i j
    unfold entry trainUsersPair
    rcases Nat.lt_or_ge i rows.length with hi | hi
    · rw [List.getD_eq_getElem _ [] (by simpa using hi)]
      simp only [List.getElem_map]
      rcases Nat.lt_or_ge j rows[i].length with hj | hj
      · rw [List.getD_eq_getElem _ 0 (by simpa using hj)]
        simp
      · rw [List.getD_eq_default _ 0 (by simpa using hj)]
    · rw [List.getD_eq_default _ [] (by simpa using hi)]
      simp

/-- Witness for C5: the spec's user-partition scenario — 10 users, ratios
`0.3`/`0.3`, giving exactly 3 val, 3 test, 4 train users, with a concrete
train-user row block. -/
theorem userHoldoutSplit_blocks_and_train_zero_witness :
    ((round (mkRat 3 10 * (List.range 10).length)).toNat
        + (round (mkRat 3 10 * (List.range 10).length)).toNat ≤ (List.range 10).length) ∧
    (userHoldoutBlocks (List.range 10) (mkRat 3 10) (mkRat 3 10) 0).2.1.length = 3 ∧
    (userHoldoutBlocks (List.range 10) (mkRat 3 10) (mkRat 3 10) 0).2.2.length = 3 ∧
    (userHoldoutBlocks (List.range 10) (mkRat 3 10) (mkRat 3 10) 0).1.length = 4 ∧
    ∀ i j, entry (trainUsersPair [[1, 0], [0, 2]]).X_test i j = 0 := by
  have hr : (round (mkRat 3 10 * ((List.range 10).length : Nat))).toNat = 3 := by
    norm_num [round_eq, Rat.mkRat_eq_div]
    rfl
  have h : (round (mkRat 3 10 * (List.range 10).length)).toNat
      + (round (mkRat 3 10 * (List.range 10).length)).toNat ≤ (List.range 10).length := by
    rw [hr]
    simp
  have main := userHoldoutSplit_blocks_and_train_zero (List.range 10)
    (mkRat 3 10) (mkRat 3 10) 0 [[1, 0], [0, 2]] h
  refine ⟨h, ?_, ?_, ?_, main.2.2.1⟩
  · rw [main.1.2.1, hr]
  · rw [main.1.2.2.1, hr]
  · rw [main.1.2.2.2, hr]
    simp

/-! ## Optimizer: trial records, best-trial selection, failure isolation -/

/-- Trial outcome statuses. -/
inductive TrialStatus
  | completed
  | pruned
  | failed
deriving DecidableEq, Inhabited

/-- One trial of a search run: id, hyperparameter assignment, target value
and status. -/
structure TrialRecord where
  id : Nat
  params : List (String × ℚ)
  value : ℚ
  status : TrialStatus
deriving DecidableEq, Inhabited

/-- Modelled from the spec: of two trials, the preferable one — strictly
larger target value wins; on an exact tie the lower trial id wins. -/
def betterTrial (a b : TrialRecord) : TrialRecord :=
  if a.value < b.value ∨ (b.value = a.value ∧ b.id < a.id) then b else a

/-- The completed trials of a history, in order. -/
def completedTrials (history : List TrialRecord) : List TrialRecord :=
  history.filter (fun t => t.status = TrialStatus.completed)

/-- Modelled from the spec: the trial whose hyperparameters become
`best_params` — the completed trial of maximal target value, ties broken
by lowest trial id; `none` when no trial completed. -/
def bestTrial (history : List TrialRecord) : Option TrialRecord :=
  match completedTrials history with
  | [] => none
  | c :: rest => some (rest.foldl betterTrial c)

/-- `best_params` of a finished run. -/
def bestParams (history : List TrialRecord) : Option (List (String × ℚ)) :=
  (bestTrial history).map (fun t => t.params)

/-- `b` is at least as good as `a` in the best-trial order (strictly larger
value, or equal value and an id at most as large). -/
def goodAs (b a : TrialRecord) : Prop :=
  a.value < b.value ∨ (a.value = b.value ∧ b.id ≤ a.id)

theorem goodAs_refl (a : TrialRecord) : goodAs a a := Or.inr ⟨rfl, le_refl _⟩

theorem goodAs_trans (c b a : TrialRecord) (h1 : goodAs c b) (h2 : goodAs b a) :
    goodAs c a := by
  unfold goodAs at *
  rcases h1 with h1 | ⟨h1v, h1i⟩ <;> rcases h2 with h2 | ⟨h2v, h2i⟩
  · exact Or.inl (h2.trans h1)
  · exact Or.inl (lt_of_eq_of_lt h2v h1)
  · exact Or.inl (lt_of_lt_of_eq h2 h1v)
  · exact Or.inr ⟨h2v.trans h1v, h1i.trans h2i⟩

theorem betterTrial_goodAs_left (a b : TrialRecord) : goodAs (betterTrial a b) a := by
  unfold betterTrial goodAs
  split
  · rename_i h
    rcases h with h | ⟨hv, hi⟩
    · exact Or.inl h
    · exact Or.inr ⟨hv.symm, Nat.le_of_lt hi⟩
  · exact Or.inr ⟨rfl, le_refl _⟩

theorem betterTrial_goodAs_right (a b : TrialRecord) : goodAs (betterTrial a b) b := by
  unfold betterTrial goodAs
  split
  · exact Or.inr ⟨rfl, le_refl _⟩
  · rename_i h
    push_neg at h
    obtain ⟨h1, h2⟩ := h
    rcases lt_or_eq_of_le h1 with hlt | heq
    · exact Or.inl hlt
    · exact Or.inr ⟨heq, h2 heq⟩

theorem betterTrial_mem (a b : TrialRecord) :
    betterTrial a b = a ∨ betterTrial a b = b := by
  unfold betterTrial
  split
  · exact Or.inr rfl
  · exact Or.inl rfl

theorem foldl_betterTrial_mem (l : List TrialRecord) :
    ∀ c, l.foldl betterTrial c ∈ c :: l := by
  induction l with
  | nil =>
    intro c
    simp
  | cons x xs ih =>
    intro c
    simp only [List.foldl_cons]
    have h := ih (betterTrial c x)
    rcases List.mem_cons.mp h with h' | h'
    · rw [h']
      rcases betterTrial_mem c x with he | he <;> rw [he] <;> simp
    · simp [h']

theorem foldl_betterTrial_goodAs (l : List TrialRecord) :
    ∀ c, ∀ u ∈ c :: l, goodAs (l.foldl betterTrial c) u := by
  induction l with
  | nil =>
    intro c u hu
    simp at hu
    subst hu
    exact goodAs_refl _
  | cons x xs ih =>
    intro c u hu
    simp only [List.foldl_cons]
    have hg := ih (betterTrial c x) (betterTrial c x) (List.mem_cons_self _ _)
    rcases List.mem_cons.mp hu with h | h
    · rw [h]
      exact goodAs_trans _ _ _ hg (betterTrial_goodAs_left c x)
    · rcases List.mem_cons.mp h with h' | h'
      · rw [h']
        exact goodAs_trans _ _ _ hg (betterTrial_goodAs_right c x)
      · exact ih (betterTrial c x) u (List.mem_cons_of_mem _ h')

/-- **C8.** After a run with at least one completed trial, `best_params` is
the hyperparameter assignment of a completed trial of the run whose target
value is maximal among completed trials, with exact-value ties resolved in
favour of the lowest trial id; pruned and failed trials are excluded (in
particular, appending one more non-completed trial never changes the
selection). -/
theorem bestParams_max_completed (history : List TrialRecord) (t : TrialRecord)
    (ht : t ∈ history) (hc : t.status = TrialStatus.completed) :
    ∃ b, bestTrial history = some b ∧ b ∈ history ∧
      b.status = TrialStatus.completed ∧
      bestParams history = some b.params ∧
      (∀ u ∈ history, u.status = TrialStatus.completed → u.value ≤ b.value) ∧
      (∀ u ∈ history, u.status = TrialStatus.completed → u.value = b.value →
        b.id ≤ u.id) ∧
      (∀ t' : TrialRecord, t'.status ≠ TrialStatus.completed →
        bestTrial (history ++ [t']) = some b) := by
  have htc : t ∈ completedTrials history :=
    List.mem_filter.mpr ⟨ht, by simp [hc]⟩
  cases hcl : completedTrials history with
  | nil =>
    rw [hcl] at htc
    cases htc
  | cons c rest =>
    refine ⟨rest.foldl betterTrial c, ?_, ?_, ?_, ?_, ?_, ?_, ?_⟩
    · unfold bestTrial
      rw [hcl]
    · have hmem : rest.foldl betterTrial c ∈ completedTrials history := by
        rw [hcl]
        exact foldl_betterTrial_mem rest c
      exact (List.mem_filter.mp hmem).1
    · have hmem : rest.foldl betterTrial c ∈ completedTrials history := by
        rw [hcl]
        exact foldl_betterTrial_mem rest c
      have := (List.mem_filter.mp hmem).2
      simpa using this
    · unfold bestParams bestTrial
      rw [hcl]
      rfl
    · intro u hu huc
      have humem : u ∈ completedTrials history :=
        List.mem_filter.mpr ⟨hu, by simp [huc]⟩
      rw [hcl] at humem
      rcases foldl_betterTrial_goodAs rest c u humem with h | ⟨h, _⟩
      · exact le_of_lt h
      · exact le_of_eq h
    · intro u hu huc huv
      have humem : u ∈ completedTrials history :=
        List.mem_filter.mpr ⟨hu, by simp [huc]⟩
      rw [hcl] at humem
      rcases foldl_betterTrial_goodAs rest c u humem with h | ⟨_, h⟩
      · exact absurd huv (ne_of_lt h)
      · exact h
    · intro t' ht'
      unfold bestTrial
      have : completedTrials (history ++ [t']) = completedTrials history := by
        unfold completedTrials
        rw [List.filter_append]
        have : [t'].filter (fun t => t.status = TrialStatus.completed) = [] := by
          simp [ht']
        rw [this, List.append_nil]
      rw [this, hcl]

/-- A concrete five-trial history: a failed trial, a pruned trial and an
exact tie between trials 2 and 3. -/
def demoHistory : List TrialRecord :=
  [⟨0, [("alpha", 1)], mkRat 1 2, TrialStatus.completed⟩,
   ⟨1, [("alpha", 2)], 0, TrialStatus.failed⟩,
   ⟨2, [("alpha", 3)], mkRat 3 4, TrialStatus.completed⟩,
   ⟨3, [("alpha", 4)], mkRat 3 4, TrialStatus.completed⟩,
   ⟨4, [("alpha", 5)], 0, TrialStatus.pruned⟩]

/-- Witness for C8: on `demoHistory`, a best trial exists with the stated
maximality and tie-break properties. -/
theorem bestParams_max_completed_witness :
    (⟨0, [("alpha", 1)], mkRat 1 2, TrialStatus.completed⟩ ∈ demoHistory ∧
     TrialStatus.completed = TrialStatus.completed) ∧
    (∃ b, bestTrial demoHistory = some b ∧ b ∈ demoHistory ∧
      b.status = TrialStatus.completed ∧
      bestParams demoHistory = some b.params ∧
      (∀ u ∈ demoHistory, u.status = TrialStatus.completed → u.value ≤ b.value) ∧
      (∀ u ∈ demoHistory, u.status = TrialStatus.completed → u.value = b.value →
        b.id ≤ u.id) ∧
      (∀ t' : TrialRecord, t'.status ≠ TrialStatus.completed →
        bestTrial (demoHistory ++ [t']) = some b)) :=
  ⟨⟨by decide, rfl⟩,
   bestParams_max_completed demoHistory
     ⟨0, [("alpha", 1)], mkRat 1 2, TrialStatus.completed⟩ (by decide) rfl⟩

/-! ## C9: failure isolation and the no-successful-trial error -/

/-- What a single trial's fit/scoring does: produce a final target value,
raise an exception, or get pruned. -/
inductive TrialOutcome
  | ok (v : ℚ)
  | raise
  | prune
deriving DecidableEq

/-- Modelled from the spec: how the Optimizer records one trial — an
exception is caught and recorded as a `failed` trial instead of
propagating. -/
def runTrial (i : Nat) (params : List (String × ℚ)) : TrialOutcome → TrialRecord
  | TrialOutcome.ok v => ⟨i, params, v, TrialStatus.completed⟩
  | TrialOutcome.raise => ⟨i, params, 0, TrialStatus.failed⟩
  | TrialOutcome.prune => ⟨i, params, 0, TrialStatus.pruned⟩

/-- Modelled from the spec: the run's SearchHistory — one record per trial,
in trial-id order, produced regardless of individual failures. -/
def runHistory (sampler : Nat → List (String × ℚ)) (outcomes : List TrialOutcome) :
    List TrialRecord :=
  outcomes.enum.map (fun p => runTrial p.1 (sampler p.1) p.2)

/-- The error of a run in which no trial completed. -/
inductive OptError
  | noSuccessfulTrial
deriving DecidableEq

/-- Modelled from the spec: `optimize` — run every trial, then either
return the best parameters with the history, or fail with the
no-successful-trial error at the end of the run. -/
def optimize (sampler : Nat → List (String × ℚ)) (outcomes : List TrialOutcome) :
    Except OptError (List (String × ℚ) × List TrialRecord) :=
  match bestTrial (runHistory sampler outcomes) with
  | some b => Except.ok (b.params, runHistory sampler outcomes)
  | none => Except.error OptError.noSuccessfulTrial

theorem runHistory_length (sampler : Nat → List (String × ℚ))
    (outcomes : List TrialOutcome) :
    (runHistory sampler outcomes).length = outcomes.length := by
  simp [runHistory]

theorem runHistory_getElem (sampler : Nat → List (String × ℚ))
    (outcomes : List TrialOutcome) (i : Nat) (h : i < outcomes.length) :
    (runHistory sampler outcomes).getD i default
      = runTrial i (sampler i) (outcomes[i]) := by
  rw [List.getD_eq_getElem _ _ (by rw [runHistory_length]; exact h)]
  simp [runHistory]

/-- **C9.** An exception during one trial marks that trial `failed` and
only that trial (every other trial's record is unchanged); the run still
executes every trial; and the run fails — with the no-successful-trial
error, and only after the whole history has been produced — exactly when
every trial was pruned or failed. -/
theorem trial_failures_isolated (sampler : Nat → List (String × ℚ))
    (outcomes : List TrialOutcome) :
    (runHistory sampler outcomes).length = outcomes.length ∧
    (∀ i (h : i < outcomes.length),
      ((runHistory sampler outcomes).getD i default).status
          = TrialStatus.failed ↔ outcomes[i] = TrialOutcome.raise) ∧
    (∀ (outcomes' : List TrialOutcome) (i j : Nat), j ≠ i →
      outcomes'.length = outcomes.length →
      outcomes.getD j TrialOutcome.prune = outcomes'.getD j TrialOutcome.prune →
      (runHistory sampler outcomes).getD j default
        = (runHistory sampler outcomes').getD j default) ∧
    (optimize sampler outcomes = Except.error OptError.noSuccessfulTrial ↔
      ∀ tr ∈ runHistory sampler outcomes, tr.status ≠ TrialStatus.completed) := by
  refine ⟨runHistory_length sampler outcomes, ?_, ?_, ?_⟩
  · intro i h
    rw [runHistory_getElem sampler outcomes i h]
    cases outcomes[i] <;> simp [runTrial]
  · intro outcomes' i j _ hlen hj
    rcases Nat.lt_or_ge j outcomes.length with hjlt | hjge
    · rw [runHistory_getElem sampler outcomes j hjlt,
        runHistory_getElem sampler outcomes' j (by rw [hlen]; exact hjlt)]
      rw [List.getD_eq_getElem _ _ hjlt,
        List.getD_eq_getElem _ _ (by rw [hlen]; exact hjlt)] at hj
      rw [hj]
    · rw [List.getD_eq_default _ _ (by rw [runHistory_length]; exact hjge),
        List.getD_eq_default _ _ (by rw [runHistory_length, hlen]; exact hjge)]
  · unfold optimize
    constructor
    · intro herr tr htr hstat
      cases hb : bestTrial (runHistory sampler outcomes) with
      | some b =>
        rw [hb] at herr
        cases herr
      | none =>
        unfold bestTrial at hb
        cases hcl : completedTrials (runHistory sampler outcomes) with
        | nil =>
          have : tr ∈ completedTrials (runHistory sampler outcomes) :=
            List.mem_filter.mpr ⟨htr, by simp [hstat]⟩
          rw [hcl] at this
          cases this
        | cons c rest =>
          rw [hcl] at hb
          cases hb
    · intro hall
      have hnil : completedTrials (runHistory sampler outcomes) = [] := by
        unfold completedTrials
        rw [List.filter_eq_nil]
        intro tr htr
        simp [hall tr htr]
      unfold bestTrial
      rw [hnil]

/-- Witness for C9: a three-trial run whose first trial raises — the other
records are unaffected, the history is complete, and the run does not fail
because trial 1 completed. -/
theorem trial_failures_isolated_witness :
    (runHistory (fun _ => []) [TrialOutcome.raise, TrialOutcome.ok 1,
        TrialOutcome.prune]).length = 3 ∧
    ((0 : Nat) < 3 ∧
      ([TrialOutcome.raise, TrialOutcome.ok 1, TrialOutcome.prune].getD 1
          TrialOutcome.prune
        = [TrialOutcome.ok 0, TrialOutcome.ok 1, TrialOutcome.prune].getD 1
          TrialOutcome.prune) ∧
      (runHistory (fun _ => []) [TrialOutcome.raise, TrialOutcome.ok 1,
          TrialOutcome.prune]).getD 1 default
        = (runHistory (fun _ => []) [TrialOutcome.ok 0, TrialOutcome.ok 1,
          TrialOutcome.prune]).getD 1 default) := by
  have hmain := trial_failures_isolated (fun _ => [])
    [TrialOutcome.raise, TrialOutcome.ok 1, TrialOutcome.prune]
  refine ⟨hmain.1, by decide, by decide, ?_⟩
  exact hmain.2.2.1 [TrialOutcome.ok 0, TrialOutcome.ok 1, TrialOutcome.prune]
    0 1 (by decide) (by decide) (by decide)

end Irspack
